import Mathlib

/-!
Verification of the best-fit-plane alignment algorithm in
`src/best_fit_plane_metashape.py`.

The script computes, from a list of 3D points:
  * the centroid (`np.mean(points, axis=0)`) and a 4x4 translation `T`
    by `-centroid` (lines 58-62),
  * the covariance matrix of the centered points (`np.cov`, line 71),
  * the eigenvector of the smallest eigenvalue via `np.linalg.eigh`
    (lines 74-77), sign-canonicalized so its z-component is
    non-negative (lines 80-81),
  * a rotation mapping that normal onto the target axis (0,0,1) by
    Rodrigues' formula (lines 84-98), embedded into a 4x4 matrix
    `R_matrix` (lines 101-104),
and updates the chunk transform first by `T` and then by `R_matrix`
(lines 63 and 107).

All arithmetic is modelled exactly over `ℚ`.  The script only ever uses
the norm `s = np.linalg.norm(v)` through the test `s == 0` (equivalent to
`v = 0`, i.e. `normSq v = 0`) and through `s**2` (which is `normSq v`),
so no square roots are needed and the embedding stays in `ℚ`.

The external eigensolver `np.linalg.eigh` is not code of this repository;
it is modelled as an arbitrary deterministic function
`E : Mat3 → Vec3` standing for `eigh(cov).eigenvectors[:, 0]`, and any
theorem that depends on its documented behaviour (a unit eigenvector of
the smallest eigenvalue, orthonormal columns) takes that behaviour as an
explicit hypothesis.
-/

/-- A 3D point / vector, one `ℚ` per coordinate (`[x, y, z]` in the script). -/
structure Vec3 where
  x : ℚ
  y : ℚ
  z : ℚ
deriving DecidableEq, Repr

namespace Vec3

def add (a b : Vec3) : Vec3 := ⟨a.x + b.x, a.y + b.y, a.z + b.z⟩

def sub (a b : Vec3) : Vec3 := ⟨a.x - b.x, a.y - b.y, a.z - b.z⟩

def neg (a : Vec3) : Vec3 := ⟨-a.x, -a.y, -a.z⟩

def smul (c : ℚ) (a : Vec3) : Vec3 := ⟨c * a.x, c * a.y, c * a.z⟩

def zero : Vec3 := ⟨0, 0, 0⟩

/-- Dot product, `np.dot`. -/
def dot (a b : Vec3) : ℚ := a.x * b.x + a.y * b.y + a.z * b.z

/-- Cross product, `np.cross`. -/
def cross (a b : Vec3) : Vec3 :=
  ⟨a.y * b.z - a.z * b.y, a.z * b.x - a.x * b.z, a.x * b.y - a.y * b.x⟩

/-- Squared euclidean norm; `np.linalg.norm(v)**2`. -/
def normSq (a : Vec3) : ℚ := a.x * a.x + a.y * a.y + a.z * a.z

/-- Sum of a list of vectors (`np.sum` along axis 0). -/
def sum : List Vec3 → Vec3
  | [] => zero
  | v :: vs => add v (sum vs)

end Vec3

/-- A 3x3 matrix of rationals, entry `mIJ` at row `I`, column `J`. -/
structure Mat3 where
  m00 : ℚ
  m01 : ℚ
  m02 : ℚ
  m10 : ℚ
  m11 : ℚ
  m12 : ℚ
  m20 : ℚ
  m21 : ℚ
  m22 : ℚ
deriving DecidableEq, Repr

namespace Mat3

/-- Identity matrix, `np.eye(3)`. -/
def id : Mat3 := ⟨1, 0, 0, 0, 1, 0, 0, 0, 1⟩

def add (A B : Mat3) : Mat3 :=
  ⟨A.m00 + B.m00, A.m01 + B.m01, A.m02 + B.m02,
   A.m10 + B.m10, A.m11 + B.m11, A.m12 + B.m12,
   A.m20 + B.m20, A.m21 + B.m21, A.m22 + B.m22⟩

def smul (c : ℚ) (A : Mat3) : Mat3 :=
  ⟨c * A.m00, c * A.m01, c * A.m02,
   c * A.m10, c * A.m11, c * A.m12,
   c * A.m20, c * A.m21, c * A.m22⟩

def zero : Mat3 := ⟨0, 0, 0, 0, 0, 0, 0, 0, 0⟩

/-- Matrix product (`@` in numpy). -/
def mul (A B : Mat3) : Mat3 :=
  ⟨A.m00 * B.m00 + A.m01 * B.m10 + A.m02 * B.m20,
   A.m00 * B.m01 + A.m01 * B.m11 + A.m02 * B.m21,
   A.m00 * B.m02 + A.m01 * B.m12 + A.m02 * B.m22,
   A.m10 * B.m00 + A.m11 * B.m10 + A.m12 * B.m20,
   A.m10 * B.m01 + A.m11 * B.m11 + A.m12 * B.m21,
   A.m10 * B.m02 + A.m11 * B.m12 + A.m12 * B.m22,
   A.m20 * B.m00 + A.m21 * B.m10 + A.m22 * B.m20,
   A.m20 * B.m01 + A.m21 * B.m11 + A.m22 * B.m21,
   A.m20 * B.m02 + A.m21 * B.m12 + A.m22 * B.m22⟩

/-- Matrix-vector product. -/
def mulVec (A : Mat3) (v : Vec3) : Vec3 :=
  ⟨A.m00 * v.x + A.m01 * v.y + A.m02 * v.z,
   A.m10 * v.x + A.m11 * v.y + A.m12 * v.z,
   A.m20 * v.x + A.m21 * v.y + A.m22 * v.z⟩

def transpose (A : Mat3) : Mat3 :=
  ⟨A.m00, A.m10, A.m20, A.m01, A.m11, A.m21, A.m02, A.m12, A.m22⟩

/-- Determinant, by cofactor expansion along the first row. -/
def det (A : Mat3) : ℚ :=
  A.m00 * (A.m11 * A.m22 - A.m12 * A.m21)
    - A.m01 * (A.m10 * A.m22 - A.m12 * A.m20)
    + A.m02 * (A.m10 * A.m21 - A.m11 * A.m20)

/-- Outer product `v · wᵀ` (used to express `np.cov`). -/
def outer (v w : Vec3) : Mat3 :=
  ⟨v.x * w.x, v.x * w.y, v.x * w.z,
   v.y * w.x, v.y * w.y, v.y * w.z,
   v.z * w.x, v.z * w.y, v.z * w.z⟩

def sum : List Mat3 → Mat3
  | [] => zero
  | A :: As => add A (sum As)

end Mat3

/-- A 4x4 homogeneous matrix (`Metashape.Matrix`), entry `aIJ` at row `I`,
column `J`. -/
structure Mat4 where
  a00 : ℚ
  a01 : ℚ
  a02 : ℚ
  a03 : ℚ
  a10 : ℚ
  a11 : ℚ
  a12 : ℚ
  a13 : ℚ
  a20 : ℚ
  a21 : ℚ
  a22 : ℚ
  a23 : ℚ
  a30 : ℚ
  a31 : ℚ
  a32 : ℚ
  a33 : ℚ
deriving DecidableEq, Repr

namespace Mat4

def id : Mat4 := ⟨1, 0, 0, 0, 0, 1, 0, 0, 0, 0, 1, 0, 0, 0, 0, 1⟩

/-- 4x4 matrix product (`*` on `Metashape.Matrix`). -/
def mul (A B : Mat4) : Mat4 :=
  ⟨A.a00 * B.a00 + A.a01 * B.a10 + A.a02 * B.a20 + A.a03 * B.a30,
   A.a00 * B.a01 + A.a01 * B.a11 + A.a02 * B.a21 + A.a03 * B.a31,
   A.a00 * B.a02 + A.a01 * B.a12 + A.a02 * B.a22 + A.a03 * B.a32,
   A.a00 * B.a03 + A.a01 * B.a13 + A.a02 * B.a23 + A.a03 * B.a33,
   A.a10 * B.a00 + A.a11 * B.a10 + A.a12 * B.a20 + A.a13 * B.a30,
   A.a10 * B.a01 + A.a11 * B.a11 + A.a12 * B.a21 + A.a13 * B.a31,
   A.a10 * B.a02 + A.a11 * B.a12 + A.a12 * B.a22 + A.a13 * B.a32,
   A.a10 * B.a03 + A.a11 * B.a13 + A.a12 * B.a23 + A.a13 * B.a33,
   A.a20 * B.a00 + A.a21 * B.a10 + A.a22 * B.a20 + A.a23 * B.a30,
   A.a20 * B.a01 + A.a21 * B.a11 + A.a22 * B.a21 + A.a23 * B.a31,
   A.a20 * B.a02 + A.a21 * B.a12 + A.a22 * B.a22 + A.a23 * B.a32,
   A.a20 * B.a03 + A.a21 * B.a13 + A.a22 * B.a23 + A.a23 * B.a33,
   A.a30 * B.a00 + A.a31 * B.a10 + A.a32 * B.a20 + A.a33 * B.a30,
   A.a30 * B.a01 + A.a31 * B.a11 + A.a32 * B.a21 + A.a33 * B.a31,
   A.a30 * B.a02 + A.a31 * B.a12 + A.a32 * B.a22 + A.a33 * B.a32,
   A.a30 * B.a03 + A.a31 * B.a13 + A.a32 * B.a23 + A.a33 * B.a33⟩

/-- Apply a homogeneous matrix to a 3D point, dividing by the resulting
homogeneous coordinate `w` (the semantics of `Metashape.Matrix.mulp`). -/
def mulp (A : Mat4) (p : Vec3) : Vec3 :=
  let w := A.a30 * p.x + A.a31 * p.y + A.a32 * p.z + A.a33
  ⟨(A.a00 * p.x + A.a01 * p.y + A.a02 * p.z + A.a03) / w,
   (A.a10 * p.x + A.a11 * p.y + A.a12 * p.z + A.a13) / w,
   (A.a20 * p.x + A.a21 * p.y + A.a22 * p.z + A.a23) / w⟩

end Mat4

/-- Translation matrix, `Metashape.Matrix().Translation(Metashape.Vector(t))`
(line 62; the script passes `t = -centroid`). -/
def translation4 (t : Vec3) : Mat4 :=
  ⟨1, 0, 0, t.x, 0, 1, 0, t.y, 0, 0, 1, t.z, 0, 0, 0, 1⟩

/-- Lines 101-104: embed the 3x3 rotation `R` into a `Metashape.Matrix`
with zero translation. -/
def rmat4 (R : Mat3) : Mat4 :=
  ⟨R.m00, R.m01, R.m02, 0,
   R.m10, R.m11, R.m12, 0,
   R.m20, R.m21, R.m22, 0,
   0, 0, 0, 1⟩

/-- Line 58: `centroid = np.mean(points, axis=0)`. -/
def centroid (points : List Vec3) : Vec3 :=
  Vec3.smul (1 / (points.length : ℚ)) (Vec3.sum points)

/-- Line 68: `centered_points = points - centroid`. -/
def centeredPoints (points : List Vec3) : List Vec3 :=
  points.map (fun p => Vec3.sub p (centroid points))

/-- Line 71: the function `np.cov(xs, rowvar=False)` on an `N x 3` array, the
unbiased sample covariance `1/(N-1) * Σᵢ (xᵢ - mean)(xᵢ - mean)ᵀ` of the rows. -/
def npCov (xs : List Vec3) : Mat3 :=
  Mat3.smul (1 / ((xs.length : ℚ) - 1))
    (Mat3.sum (xs.map (fun p =>
      Mat3.outer (Vec3.sub p (centroid xs)) (Vec3.sub p (centroid xs)))))

/-- The covariance matrix the script diagonalizes (line 71 applied to the
centered points of line 68). -/
def covOf (points : List Vec3) : Mat3 :=
  npCov (centeredPoints points)

/-- Lines 80-81: flip the eigenvector so it points upward. -/
def canonicalize (nv : Vec3) : Vec3 :=
  if nv.z < 0 then Vec3.neg nv else nv

/-- Line 84: `target_vector = np.array([0, 0, 1])`. -/
def target_vector : Vec3 := ⟨0, 0, 1⟩

/-- Lines 95-97: the skew-symmetric cross-product matrix `vx` of `v`. -/
def crossMat (v : Vec3) : Mat3 :=
  ⟨0, -v.z, v.y, v.z, 0, -v.x, -v.y, v.x, 0⟩

/-- Lines 87-98: Rodrigues' rotation synthesis from the (canonicalized)
normal.  The script branches on `s == 0` where `s = np.linalg.norm(v)`;
in exact arithmetic `s == 0` iff `normSq v = 0`, and the only other use
of `s` is `s**2 = normSq v`. -/
def rodriguesR (n : Vec3) : Mat3 :=
  let v := Vec3.cross n target_vector
  if Vec3.normSq v = 0 then
    Mat3.id
  else
    let c := Vec3.dot n target_vector
    let vx := crossMat v
    Mat3.add (Mat3.add Mat3.id vx)
      (Mat3.smul ((1 - c) / Vec3.normSq v) (Mat3.mul vx vx))

/-- Division on `ℚ` that fails (like a float division surfacing `inf`/`nan`)
instead of defaulting to `0` when the divisor is zero. -/
def divChecked (a b : ℚ) : Option ℚ :=
  if b = 0 then none else some (a / b)

/-- Same computation as `rodriguesR` with the division `(1 - c) / s**2`
made strict via `divChecked`: it returns `none` if that division would
divide by zero.  Used to state that the `s == 0` guard protects the
division. -/
def rodriguesRChecked (n : Vec3) : Option Mat3 :=
  let v := Vec3.cross n target_vector
  if Vec3.normSq v = 0 then
    some Mat3.id
  else
    let c := Vec3.dot n target_vector
    let vx := crossMat v
    (divChecked (1 - c) (Vec3.normSq v)).map
      (fun f => Mat3.add (Mat3.add Mat3.id vx) (Mat3.smul f (Mat3.mul vx vx)))

/-- Line 77 composed with lines 80-81: the sign-canonicalized plane
normal, with the eigensolver `E` standing for
`np.linalg.eigh(cov).eigenvectors[:, 0]`. -/
def normalOf (E : Mat3 → Vec3) (points : List Vec3) : Vec3 :=
  canonicalize (E (covOf points))

/-- The 3x3 rotation the script builds for a point set (lines 87-98). -/
def rotOf (E : Mat3 → Vec3) (points : List Vec3) : Mat3 :=
  rodriguesR (normalOf E points)

/-- The net rigid transform the script applies to the chunk: line 63
multiplies the chunk matrix by `T` on the left, line 107 then multiplies
by `R_matrix` on the left, so relative to the original frame the script
applies `R_matrix * T`. -/
def alignTransform (E : Mat3 → Vec3) (points : List Vec3) : Mat4 :=
  Mat4.mul (rmat4 (rotOf E points)) (translation4 (Vec3.neg (centroid points)))

/-- The chunk transform after line 63. -/
def chunkAfterT (points : List Vec3) (M0 : Mat4) : Mat4 :=
  Mat4.mul (translation4 (Vec3.neg (centroid points))) M0

/-- The chunk transform after line 107. -/
def chunkAfterR (E : Mat3 → Vec3) (points : List Vec3) (M0 : Mat4) : Mat4 :=
  Mat4.mul (rmat4 (rotOf E points)) (chunkAfterT points M0)

/-- The script's error exits: no mesh (line 36), or fewer than 3 vertices
(line 45, the spec's `InsufficientDataError`). -/
inductive ScriptError where
  | noMesh
  | insufficientData
deriving DecidableEq, Repr

/-- The script's control flow around the core computation: line 43 checks
`len(vertices) < 3` and raises before any transform is computed; otherwise
the alignment transform is computed and applied. -/
def runScript (E : Mat3 → Vec3) (vertices : List Vec3) :
    Except ScriptError Mat4 :=
  if vertices.length < 3 then
    Except.error ScriptError.insufficientData
  else
    Except.ok (alignTransform E vertices)

/-- The matrix built in the `s ≠ 0` branch (line 98), as a function of `v`
and the scalar `f = (1 - c) / s**2`. -/
def rotCandidate (v : Vec3) (f : ℚ) : Mat3 :=
  Mat3.add (Mat3.add Mat3.id (crossMat v)) (Mat3.smul f (Mat3.mul (crossMat v) (crossMat v)))

/-- Fixed eigensolver stubs used to instantiate the `np.linalg.eigh`
hypotheses on concrete inputs. -/
def Efix : Mat3 → Vec3 := fun _ => ⟨0, 0, 1⟩

/-- Eigensolver stub returning the downward unit vector (exercises the
sign canonicalization). -/
def Eneg : Mat3 → Vec3 := fun _ => ⟨0, 0, -1⟩

/-- Eigensolver stub returning the x-axis unit vector. -/
def Ex : Mat3 → Vec3 := fun _ => ⟨1, 0, 0⟩

/-- Scenario A of the spec: the 4 corners of a unit square in the plane
z = 5. -/
def pts4 : List Vec3 := [⟨0, 0, 5⟩, ⟨1, 0, 5⟩, ⟨1, 1, 5⟩, ⟨0, 1, 5⟩]

/-- Scenario B of the spec: 4 points in the plane x = 3. -/
def ptsB : List Vec3 := [⟨3, 0, 0⟩, ⟨3, 1, 0⟩, ⟨3, 0, 1⟩, ⟨3, 1, 1⟩]

/-- Scenario A after alignment: the centered square in the plane z = 0. -/
def qts4 : List Vec3 :=
  [⟨-1/2, -1/2, 0⟩, ⟨1/2, -1/2, 0⟩, ⟨1/2, 1/2, 0⟩, ⟨-1/2, 1/2, 0⟩]

attribute [ext] Vec3 Mat3 Mat4

namespace Vec3

lemma vsum_perm {l l2 : List Vec3} (h : l.Perm l2) : sum l = sum l2 := by
  induction h with
  | nil => rfl
  | cons a _ ih => simp [sum, ih]
  | swap a b l => ext <;> simp [sum, add] <;> ring
  | trans _ _ ih1 ih2 => exact ih1.trans ih2

lemma sum_x (l : List Vec3) : (sum l).x = (l.map x).sum := by
  induction l with
  | nil => simp [sum, zero]
  | cons a l ih => simp [sum, add, ih]

lemma sum_y (l : List Vec3) : (sum l).y = (l.map y).sum := by
  induction l with
  | nil => simp [sum, zero]
  | cons a l ih => simp [sum, add, ih]

lemma sum_z (l : List Vec3) : (sum l).z = (l.map z).sum := by
  induction l with
  | nil => simp [sum, zero]
  | cons a l ih => simp [sum, add, ih]

lemma normSq_neg (v : Vec3) : normSq (neg v) = normSq v := by
  simp only [normSq, neg]; ring

lemma neg_neg_eq (v : Vec3) : neg (neg v) = v := by
  ext <;> simp [neg]

lemma ne_zero_of_normSq_one {v : Vec3} (h : normSq v = 1) : v ≠ zero := by
  intro h0
  rw [h0] at h
  norm_num [normSq, zero] at h

lemma smul_one_eq (v : Vec3) : smul 1 v = v := by
  ext <;> simp [smul]

lemma smul_neg_one_eq (v : Vec3) : smul (-1) v = neg v := by
  ext <;> simp [smul, neg]

lemma normSq_smul (a : ℚ) (v : Vec3) : normSq (smul a v) = a * a * normSq v := by
  simp only [normSq, smul]; ring

end Vec3

namespace Mat3

lemma msum_perm {l l2 : List Mat3} (h : l.Perm l2) : sum l = sum l2 := by
  induction h with
  | nil => rfl
  | cons a _ ih => simp [sum, ih]
  | swap a b l => ext <;> simp [sum, add] <;> ring
  | trans _ _ ih1 ih2 => exact ih1.trans ih2

lemma mul_assoc3 (A B C : Mat3) : mul (mul A B) C = mul A (mul B C) := by
  ext <;> simp [mul] <;> ring

lemma mul_id_left (A : Mat3) : mul id A = A := by
  ext <;> simp [mul, id]

lemma mul_id_right (A : Mat3) : mul A id = A := by
  ext <;> simp [mul, id]

lemma transpose_transpose (A : Mat3) : transpose (transpose A) = A := rfl

lemma transpose_id : transpose id = id := rfl

lemma mulVec_mul (A B : Mat3) (v : Vec3) :
    mulVec (mul A B) v = mulVec A (mulVec B v) := by
  ext <;> simp [mulVec, mul] <;> ring

lemma mulVec_id (v : Vec3) : mulVec id v = v := by
  ext <;> simp [mulVec, id]

lemma mulVec_smulVec (A : Mat3) (c : ℚ) (v : Vec3) :
    mulVec A (Vec3.smul c v) = Vec3.smul c (mulVec A v) := by
  ext <;> simp [mulVec, Vec3.smul] <;> ring

lemma mulVec_negVec (A : Mat3) (v : Vec3) :
    mulVec A (Vec3.neg v) = Vec3.neg (mulVec A v) := by
  ext <;> simp [mulVec, Vec3.neg] <;> ring

lemma normSq_mulVec (A : Mat3) (v : Vec3) :
    Vec3.normSq (mulVec A v) = Vec3.dot (mulVec (mul (transpose A) A) v) v := by
  simp only [Vec3.normSq, Vec3.dot, mulVec, mul, transpose]; ring

lemma mul_smul_left (c : ℚ) (A B : Mat3) : mul (smul c A) B = smul c (mul A B) := by
  ext <;> simp [mul, smul] <;> ring

lemma mul_smul_right (c : ℚ) (A B : Mat3) : mul A (smul c B) = smul c (mul A B) := by
  ext <;> simp [mul, smul] <;> ring

lemma smul_zero_eq (A : Mat3) : smul 0 A = zero := by
  ext <;> simp [smul, zero]

lemma add_zero_eq (A : Mat3) : add A zero = A := by
  ext <;> simp [add, zero]

lemma outer_mulVec (R : Mat3) (a b : Vec3) :
    outer (mulVec R a) (mulVec R b) = mul (mul R (outer a b)) (transpose R) := by
  ext <;> simp [outer, mulVec, mul, transpose] <;> ring

lemma sum_map_conj (R S : Mat3) (g : Vec3 → Mat3) (l : List Vec3) :
    sum (l.map fun p => mul (mul R (g p)) S) = mul (mul R (sum (l.map g))) S := by
  induction l with
  | nil => ext <;> simp [sum, zero, mul]
  | cons a l ih =>
      simp only [List.map_cons, sum]
      rw [ih]
      ext <;> simp [add, mul] <;> ring

end Mat3


lemma dot_target (n : Vec3) : Vec3.dot n target_vector = n.z := by
  simp [Vec3.dot, target_vector]

lemma cross_target (n : Vec3) : Vec3.cross n target_vector = ⟨n.y, -n.x, 0⟩ := by
  ext <;> simp [Vec3.cross, target_vector]

lemma normSq_cross_target (n : Vec3) :
    Vec3.normSq (Vec3.cross n target_vector) = n.x * n.x + n.y * n.y := by
  rw [cross_target]; simp only [Vec3.normSq]; ring

lemma rodriguesR_of_cross_zero (n : Vec3)
    (hs : Vec3.normSq (Vec3.cross n target_vector) = 0) : rodriguesR n = Mat3.id := by
  simp [rodriguesR, hs]

lemma rodriguesR_eq_candidate (n : Vec3)
    (hs : Vec3.normSq (Vec3.cross n target_vector) ≠ 0) :
    rodriguesR n = rotCandidate (Vec3.cross n target_vector)
      ((1 - Vec3.dot n target_vector) / Vec3.normSq (Vec3.cross n target_vector)) := by
  simp [rodriguesR, rotCandidate, hs]

lemma candidate_orth_left (v : Vec3) (f : ℚ)
    (hf : 2 * f - 1 - f * f * Vec3.normSq v = 0) :
    Mat3.mul (Mat3.transpose (rotCandidate v f)) (rotCandidate v f) = Mat3.id := by
  have key : Mat3.mul (Mat3.transpose (rotCandidate v f)) (rotCandidate v f)
      = Mat3.add Mat3.id (Mat3.smul (2 * f - 1 - f * f * Vec3.normSq v)
          (Mat3.mul (crossMat v) (crossMat v))) := by
    ext <;>
      simp [rotCandidate, crossMat, Mat3.mul, Mat3.add, Mat3.smul, Mat3.transpose,
        Mat3.id, Vec3.normSq] <;> ring
  rw [key, hf, Mat3.smul_zero_eq, Mat3.add_zero_eq]

lemma candidate_orth_right (v : Vec3) (f : ℚ)
    (hf : 2 * f - 1 - f * f * Vec3.normSq v = 0) :
    Mat3.mul (rotCandidate v f) (Mat3.transpose (rotCandidate v f)) = Mat3.id := by
  have key : Mat3.mul (rotCandidate v f) (Mat3.transpose (rotCandidate v f))
      = Mat3.add Mat3.id (Mat3.smul (2 * f - 1 - f * f * Vec3.normSq v)
          (Mat3.mul (crossMat v) (crossMat v))) := by
    ext <;>
      simp [rotCandidate, crossMat, Mat3.mul, Mat3.add, Mat3.smul, Mat3.transpose,
        Mat3.id, Vec3.normSq] <;> ring
  rw [key, hf, Mat3.smul_zero_eq, Mat3.add_zero_eq]

lemma candidate_det (v : Vec3) (f : ℚ) :
    Mat3.det (rotCandidate v f) = (1 - f * Vec3.normSq v) ^ 2 + Vec3.normSq v := by
  simp only [rotCandidate, crossMat, Mat3.det, Mat3.mul, Mat3.add, Mat3.smul, Mat3.id,
    Vec3.normSq]
  ring

lemma rodrigues_scalar (n : Vec3) (h1 : Vec3.normSq n = 1)
    (hs : Vec3.normSq (Vec3.cross n target_vector) ≠ 0) :
    2 * ((1 - Vec3.dot n target_vector) / Vec3.normSq (Vec3.cross n target_vector)) - 1
      - ((1 - Vec3.dot n target_vector) / Vec3.normSq (Vec3.cross n target_vector))
        * ((1 - Vec3.dot n target_vector) / Vec3.normSq (Vec3.cross n target_vector))
        * Vec3.normSq (Vec3.cross n target_vector) = 0 := by
  rw [normSq_cross_target] at hs
  rw [dot_target, normSq_cross_target]
  simp only [Vec3.normSq] at h1
  rw [mul_assoc, div_mul_cancel₀ _ hs]
  rw [div_mul_eq_mul_div]
  field_simp
  linear_combination -h1

lemma rodrigues_orth_left (n : Vec3) (h1 : Vec3.normSq n = 1) :
    Mat3.mul (Mat3.transpose (rodriguesR n)) (rodriguesR n) = Mat3.id := by
  by_cases hs : Vec3.normSq (Vec3.cross n target_vector) = 0
  · rw [rodriguesR_of_cross_zero n hs, Mat3.transpose_id, Mat3.mul_id_left]
  · rw [rodriguesR_eq_candidate n hs]
    exact candidate_orth_left _ _ (rodrigues_scalar n h1 hs)

lemma rodrigues_orth_right (n : Vec3) (h1 : Vec3.normSq n = 1) :
    Mat3.mul (rodriguesR n) (Mat3.transpose (rodriguesR n)) = Mat3.id := by
  by_cases hs : Vec3.normSq (Vec3.cross n target_vector) = 0
  · rw [rodriguesR_of_cross_zero n hs, Mat3.transpose_id, Mat3.mul_id_left]
  · rw [rodriguesR_eq_candidate n hs]
    exact candidate_orth_right _ _ (rodrigues_scalar n h1 hs)

lemma rodrigues_det (n : Vec3) (h1 : Vec3.normSq n = 1) :
    Mat3.det (rodriguesR n) = 1 := by
  by_cases hs : Vec3.normSq (Vec3.cross n target_vector) = 0
  · rw [rodriguesR_of_cross_zero n hs]; norm_num [Mat3.det, Mat3.id]
  · rw [rodriguesR_eq_candidate n hs, candidate_det]
    rw [div_mul_cancel₀ _ hs, dot_target, normSq_cross_target]
    simp only [Vec3.normSq] at h1
    linear_combination h1

lemma candidate_mulVec (n : Vec3) (f : ℚ)
    (h1 : n.x * n.x + n.y * n.y + n.z * n.z = 1)
    (hfD : f * (n.x * n.x + n.y * n.y) = 1 - n.z) :
    Mat3.mulVec (rotCandidate (Vec3.cross n target_vector) f) n = target_vector := by
  ext
  · simp only [rotCandidate, crossMat, Mat3.mulVec, Mat3.mul, Mat3.add, Mat3.smul,
      Mat3.id, Vec3.cross, target_vector]
    linear_combination (-n.x) * hfD
  · simp only [rotCandidate, crossMat, Mat3.mulVec, Mat3.mul, Mat3.add, Mat3.smul,
      Mat3.id, Vec3.cross, target_vector]
    linear_combination (-n.y) * hfD
  · simp only [rotCandidate, crossMat, Mat3.mulVec, Mat3.mul, Mat3.add, Mat3.smul,
      Mat3.id, Vec3.cross, target_vector]
    linear_combination (-n.z) * hfD + h1

lemma rodrigues_mulVec_of_ne (n : Vec3) (h1 : Vec3.normSq n = 1)
    (hs : Vec3.normSq (Vec3.cross n target_vector) ≠ 0) :
    Mat3.mulVec (rodriguesR n) n = target_vector := by
  rw [rodriguesR_eq_candidate n hs]
  rw [normSq_cross_target] at hs
  simp only [Vec3.normSq] at h1
  refine candidate_mulVec n _ h1 ?_
  rw [dot_target, normSq_cross_target]
  exact div_mul_cancel₀ _ hs

lemma canonicalize_z_nonneg (nv : Vec3) : 0 ≤ (canonicalize nv).z := by
  unfold canonicalize
  by_cases h : nv.z < 0
  · rw [if_pos h]; simp only [Vec3.neg]; linarith
  · rw [if_neg h]; linarith

lemma canonicalize_eq_or (nv : Vec3) :
    canonicalize nv = nv ∨ canonicalize nv = Vec3.neg nv := by
  unfold canonicalize
  by_cases h : nv.z < 0
  · right; rw [if_pos h]
  · left; rw [if_neg h]

lemma normSq_canonicalize (nv : Vec3) :
    Vec3.normSq (canonicalize nv) = Vec3.normSq nv := by
  rcases canonicalize_eq_or nv with h | h
  · rw [h]
  · rw [h, Vec3.normSq_neg]

lemma unit_cross_zero_eq_target (n : Vec3) (h1 : Vec3.normSq n = 1) (hz : 0 ≤ n.z)
    (hs : Vec3.normSq (Vec3.cross n target_vector) = 0) : n = target_vector := by
  rw [normSq_cross_target] at hs
  have hx : n.x = 0 := by nlinarith [mul_self_nonneg n.x, mul_self_nonneg n.y]
  have hy : n.y = 0 := by nlinarith [mul_self_nonneg n.x, mul_self_nonneg n.y]
  simp only [Vec3.normSq, hx, hy] at h1
  norm_num at h1
  have hz1 : n.z = 1 := by
    rcases mul_self_eq_one_iff.mp h1 with h | h
    · exact h
    · linarith
  ext <;> simp [target_vector, hx, hy, hz1]

lemma unit_cross_zero_cases (n : Vec3) (h1 : Vec3.normSq n = 1)
    (hs : Vec3.normSq (Vec3.cross n target_vector) = 0) :
    n = target_vector ∨ n = Vec3.neg target_vector := by
  rw [normSq_cross_target] at hs
  have hx : n.x = 0 := by nlinarith [mul_self_nonneg n.x, mul_self_nonneg n.y]
  have hy : n.y = 0 := by nlinarith [mul_self_nonneg n.x, mul_self_nonneg n.y]
  simp only [Vec3.normSq, hx, hy] at h1
  norm_num at h1
  rcases mul_self_eq_one_iff.mp h1 with h | h
  · left; ext <;> simp [target_vector, hx, hy, h]
  · right; ext <;> simp [target_vector, Vec3.neg, hx, hy, h]

lemma mulVec_zero_vec (R : Mat3) : Mat3.mulVec R Vec3.zero = Vec3.zero := by
  ext <;> simp [Mat3.mulVec, Vec3.zero]

lemma sub_zero_vec (p : Vec3) : Vec3.sub p Vec3.zero = p := by
  ext <;> simp [Vec3.sub, Vec3.zero]

lemma add_neg_eq_sub (p c : Vec3) : Vec3.add p (Vec3.neg c) = Vec3.sub p c := by
  ext <;> simp [Vec3.add, Vec3.neg, Vec3.sub] <;> ring

lemma mulp_rot_translate (R : Mat3) (t : Vec3) (p : Vec3) :
    Mat4.mulp (Mat4.mul (rmat4 R) (translation4 t)) p
      = Mat3.mulVec R (Vec3.add p t) := by
  ext <;> simp [Mat4.mulp, Mat4.mul, rmat4, translation4, Mat3.mulVec, Vec3.add] <;> ring

lemma mulp_alignTransform (E : Mat3 → Vec3) (points : List Vec3) (p : Vec3) :
    Mat4.mulp (alignTransform E points) p
      = Mat3.mulVec (rotOf E points) (Vec3.sub p (centroid points)) := by
  unfold alignTransform
  rw [mulp_rot_translate, add_neg_eq_sub]

lemma centroid_eq (l : List Vec3) :
    centroid l = Vec3.smul (1 / (l.length : ℚ)) (Vec3.sum l) := rfl

lemma sum_map_mulVec_sub (R : Mat3) (m : Vec3) (l : List Vec3) :
    Vec3.sum (l.map fun p => Mat3.mulVec R (Vec3.sub p m))
      = Mat3.mulVec R (Vec3.sub (Vec3.sum l) (Vec3.smul (l.length : ℚ) m)) := by
  induction l with
  | nil => ext <;> simp [Vec3.sum, Vec3.zero, Vec3.sub, Vec3.smul, Mat3.mulVec]
  | cons a l ih =>
      simp only [List.map_cons, Vec3.sum, List.length_cons]
      rw [ih]
      push_cast
      ext <;> simp [Vec3.add, Vec3.sub, Vec3.smul, Mat3.mulVec] <;> ring

lemma sum_sub_length_smul_centroid (l : List Vec3) (h : (l.length : ℚ) ≠ 0) :
    Vec3.sub (Vec3.sum l) (Vec3.smul (l.length : ℚ) (centroid l)) = Vec3.zero := by
  rw [centroid_eq]
  ext <;> simp [Vec3.sub, Vec3.smul, Vec3.zero] <;> field_simp

lemma centroid_map_rot_sub (R : Mat3) (l : List Vec3) (h : (l.length : ℚ) ≠ 0) :
    centroid (l.map fun p => Mat3.mulVec R (Vec3.sub p (centroid l))) = Vec3.zero := by
  rw [centroid_eq, List.length_map, sum_map_mulVec_sub,
    sum_sub_length_smul_centroid l h, mulVec_zero_vec]
  ext <;> simp [Vec3.smul, Vec3.zero]

lemma sum_map_sub (m : Vec3) (l : List Vec3) :
    Vec3.sum (l.map fun p => Vec3.sub p m)
      = Vec3.sub (Vec3.sum l) (Vec3.smul (l.length : ℚ) m) := by
  induction l with
  | nil => ext <;> simp [Vec3.sum, Vec3.zero, Vec3.sub, Vec3.smul]
  | cons a l ih =>
      simp only [List.map_cons, Vec3.sum, List.length_cons]
      rw [ih]
      push_cast
      ext <;> simp [Vec3.add, Vec3.sub, Vec3.smul] <;> ring

lemma centroid_centered (l : List Vec3) (h : (l.length : ℚ) ≠ 0) :
    centroid (centeredPoints l) = Vec3.zero := by
  unfold centeredPoints
  rw [centroid_eq, List.length_map, sum_map_sub, sum_sub_length_smul_centroid l h]
  ext <;> simp [Vec3.smul, Vec3.zero]

lemma npCov_of_centroid_zero (xs : List Vec3) (h : centroid xs = Vec3.zero) :
    npCov xs = Mat3.smul (1 / ((xs.length : ℚ) - 1))
      (Mat3.sum (xs.map fun c => Mat3.outer c c)) := by
  unfold npCov
  rw [h]
  have hfun : (fun p => Mat3.outer (Vec3.sub p Vec3.zero) (Vec3.sub p Vec3.zero))
      = fun p : Vec3 => Mat3.outer p p := by
    funext p; rw [sub_zero_vec]
  rw [hfun]

lemma covOf_eq (l : List Vec3) (h : (l.length : ℚ) ≠ 0) :
    covOf l = Mat3.smul (1 / ((l.length : ℚ) - 1))
      (Mat3.sum (l.map fun p =>
        Mat3.outer (Vec3.sub p (centroid l)) (Vec3.sub p (centroid l)))) := by
  unfold covOf
  rw [npCov_of_centroid_zero _ (centroid_centered l h)]
  unfold centeredPoints
  rw [List.length_map, List.map_map]
  rfl

namespace Mat4

lemma mul_assoc4 (A B C : Mat4) : mul (mul A B) C = mul A (mul B C) := by
  ext <;> simp [mul] <;> ring

lemma mul_id_right4 (A : Mat4) : mul A id = A := by
  ext <;> simp [mul, id]

end Mat4

lemma rodrigues_mulVec_canon (n : Vec3) (h1 : Vec3.normSq n = 1) (hz : 0 ≤ n.z) :
    Mat3.mulVec (rodriguesR n) n = target_vector := by
  by_cases hs : Vec3.normSq (Vec3.cross n target_vector) = 0
  · have hnt : n = target_vector := unit_cross_zero_eq_target n h1 hz hs
    rw [rodriguesR_of_cross_zero n hs, Mat3.mulVec_id, hnt]
  · exact rodrigues_mulVec_of_ne n h1 hs

lemma normSq_normalOf (E : Mat3 → Vec3) (points : List Vec3)
    (h1 : Vec3.normSq (E (covOf points)) = 1) :
    Vec3.normSq (normalOf E points) = 1 := by
  unfold normalOf
  rw [normSq_canonicalize]
  exact h1

lemma len_cast_ne_zero {points : List Vec3} (h : 3 ≤ points.length) :
    ((points.length : ℚ)) ≠ 0 :=
  Nat.cast_ne_zero.mpr (by omega)


/-- C1: the script's chunk update composes to `R_matrix * T` (translation
applied first, rotation second), and for every point set of size ≥ 3,
applying that net transform to every input point yields a point set whose
centroid is the zero vector. -/
theorem claim_C1 (E : Mat3 → Vec3) (points : List Vec3) (M0 : Mat4)
    (h : 3 ≤ points.length) :
    chunkAfterR E points M0 = Mat4.mul (alignTransform E points) M0 ∧
    centroid (points.map (Mat4.mulp (alignTransform E points))) = Vec3.zero := by
  constructor
  · unfold chunkAfterR chunkAfterT alignTransform
    exact (Mat4.mul_assoc4 _ _ _).symm
  · have hfun : Mat4.mulp (alignTransform E points)
        = fun p => Mat3.mulVec (rotOf E points) (Vec3.sub p (centroid points)) :=
      funext fun p => mulp_alignTransform E points p
    rw [hfun]
    exact centroid_map_rot_sub _ _ (len_cast_ne_zero h)

/-- Witness for C1 on Scenario A. -/
theorem claim_C1_witness :
    3 ≤ pts4.length ∧
    (chunkAfterR Efix pts4 Mat4.id = Mat4.mul (alignTransform Efix pts4) Mat4.id ∧
      centroid (pts4.map (Mat4.mulp (alignTransform Efix pts4))) = Vec3.zero) :=
  ⟨by decide, claim_C1 Efix pts4 Mat4.id (by decide)⟩

/-- C3: whenever the cross product `v` of the canonicalized normal and
the target axis has nonzero (squared) norm, the rotation is Rodrigues'
closed form `I + K + K² * ((1 - c) / s²)`, and it maps the normal onto
the target axis. -/
theorem claim_C3 (E : Mat3 → Vec3) (points : List Vec3)
    (h1 : Vec3.normSq (E (covOf points)) = 1)
    (hs : Vec3.normSq (Vec3.cross (normalOf E points) target_vector) ≠ 0) :
    rotOf E points
      = Mat3.add
          (Mat3.add Mat3.id (crossMat (Vec3.cross (normalOf E points) target_vector)))
          (Mat3.smul
            ((1 - Vec3.dot (normalOf E points) target_vector)
              / Vec3.normSq (Vec3.cross (normalOf E points) target_vector))
            (Mat3.mul (crossMat (Vec3.cross (normalOf E points) target_vector))
              (crossMat (Vec3.cross (normalOf E points) target_vector)))) ∧
    Mat3.mulVec (rotOf E points) (normalOf E points) = target_vector := by
  constructor
  · unfold rotOf
    rw [rodriguesR_eq_candidate _ hs]
    rfl
  · unfold rotOf
    exact rodrigues_mulVec_of_ne _ (normSq_normalOf E points h1) hs

/-- Witness for C3 on Scenario B with an eigensolver returning the x-axis. -/
theorem claim_C3_witness :
    Vec3.normSq (Ex (covOf ptsB)) = 1 ∧
    Vec3.normSq (Vec3.cross (normalOf Ex ptsB) target_vector) ≠ 0 ∧
    (rotOf Ex ptsB
      = Mat3.add
          (Mat3.add Mat3.id (crossMat (Vec3.cross (normalOf Ex ptsB) target_vector)))
          (Mat3.smul
            ((1 - Vec3.dot (normalOf Ex ptsB) target_vector)
              / Vec3.normSq (Vec3.cross (normalOf Ex ptsB) target_vector))
            (Mat3.mul (crossMat (Vec3.cross (normalOf Ex ptsB) target_vector))
              (crossMat (Vec3.cross (normalOf Ex ptsB) target_vector)))) ∧
      Mat3.mulVec (rotOf Ex ptsB) (normalOf Ex ptsB) = target_vector) := by
  have h1 : Vec3.normSq (Ex (covOf ptsB)) = 1 := by norm_num [Ex, Vec3.normSq]
  have hn : normalOf Ex ptsB = ⟨1, 0, 0⟩ := by
    norm_num [normalOf, Ex, canonicalize]
  have hs : Vec3.normSq (Vec3.cross (normalOf Ex ptsB) target_vector) ≠ 0 := by
    rw [hn]; norm_num [Vec3.cross, Vec3.normSq, target_vector]
  exact ⟨h1, hs, claim_C3 Ex ptsB h1 hs⟩

/-- Counterexample to C4: at the antiparallel input n = (0,0,-1) the
`s == 0` branch is taken with c = -1 < 0, and the script produces the
identity matrix, which maps n to -target ≠ target: no 180-degree rotation
aligning n with the target is produced. -/
theorem claim_C4_counterexample :
    Vec3.normSq ⟨0, 0, -1⟩ = 1 ∧
    Vec3.normSq (Vec3.cross ⟨0, 0, -1⟩ target_vector) = 0 ∧
    Vec3.dot ⟨0, 0, -1⟩ target_vector < 0 ∧
    rodriguesR ⟨0, 0, -1⟩ = Mat3.id ∧
    Mat3.mulVec (rodriguesR ⟨0, 0, -1⟩) ⟨0, 0, -1⟩ ≠ target_vector := by
  refine ⟨by norm_num [Vec3.normSq], by norm_num [Vec3.cross, Vec3.normSq, target_vector],
    by norm_num [Vec3.dot, target_vector], ?_, ?_⟩
  · apply rodriguesR_of_cross_zero
    norm_num [Vec3.cross, Vec3.normSq, target_vector]
  · have h : rodriguesR ⟨0, 0, -1⟩ = Mat3.id := by
      apply rodriguesR_of_cross_zero
      norm_num [Vec3.cross, Vec3.normSq, target_vector]
    rw [h, Mat3.mulVec_id]
    norm_num [target_vector]

/-- C4 (amended): in the `s == 0` branch the script always returns the
identity; there `c` is ±1, and whenever the normal has non-negative
z-component (as the canonicalized normal does), only `c = +1` can occur,
in which case the identity correctly maps the normal onto the target.
The `c < 0` sub-case yields the identity as well, not a 180-degree
rotation. -/
theorem claim_C4 (n : Vec3) (h1 : Vec3.normSq n = 1)
    (hs : Vec3.normSq (Vec3.cross n target_vector) = 0) :
    rodriguesR n = Mat3.id ∧
    (Vec3.dot n target_vector = 1 ∨ Vec3.dot n target_vector = -1) ∧
    (0 ≤ n.z → Vec3.dot n target_vector = 1 ∧
      Mat3.mulVec (rodriguesR n) n = target_vector) := by
  refine ⟨rodriguesR_of_cross_zero n hs, ?_, ?_⟩
  · rcases unit_cross_zero_cases n h1 hs with h | h
    · left; rw [h]; norm_num [Vec3.dot, target_vector]
    · right; rw [h]; norm_num [Vec3.dot, Vec3.neg, target_vector]
  · intro hz
    have hnt : n = target_vector := unit_cross_zero_eq_target n h1 hz hs
    constructor
    · rw [hnt]; norm_num [Vec3.dot, target_vector]
    · rw [rodriguesR_of_cross_zero n hs, Mat3.mulVec_id, hnt]

/-- Witness for the amended C4 at the aligned input n = (0,0,1). -/
theorem claim_C4_witness :
    Vec3.normSq target_vector = 1 ∧
    Vec3.normSq (Vec3.cross target_vector target_vector) = 0 ∧
    (rodriguesR target_vector = Mat3.id ∧
      (Vec3.dot target_vector target_vector = 1 ∨
        Vec3.dot target_vector target_vector = -1) ∧
      (0 ≤ target_vector.z → Vec3.dot target_vector target_vector = 1 ∧
        Mat3.mulVec (rodriguesR target_vector) target_vector = target_vector)) := by
  have h1 : Vec3.normSq target_vector = 1 := by norm_num [Vec3.normSq, target_vector]
  have hs : Vec3.normSq (Vec3.cross target_vector target_vector) = 0 := by
    norm_num [Vec3.cross, Vec3.normSq, target_vector]
  exact ⟨h1, hs, claim_C4 target_vector h1 hs⟩

/-- C5: for every input with fewer than 3 points the script fails with
the insufficient-data error before computing any transform. -/
theorem claim_C5 (E : Mat3 → Vec3) (vertices : List Vec3)
    (h : vertices.length < 3) :
    runScript E vertices = Except.error ScriptError.insufficientData := by
  unfold runScript
  rw [if_pos h]

/-- Witness for C5 with an empty vertex list. -/
theorem claim_C5_witness :
    ([] : List Vec3).length < 3 ∧
    runScript Efix [] = Except.error ScriptError.insufficientData :=
  ⟨by decide, claim_C5 Efix [] (by decide)⟩

/-- C6: the rotation block is orthonormal with determinant +1, and maps
the canonicalized normal onto the target axis. -/
theorem claim_C6 (E : Mat3 → Vec3) (points : List Vec3)
    (hN : 3 ≤ points.length)
    (h1 : Vec3.normSq (E (covOf points)) = 1) :
    Mat3.mul (Mat3.transpose (rotOf E points)) (rotOf E points) = Mat3.id ∧
    Mat3.det (rotOf E points) = 1 ∧
    Mat3.mulVec (rotOf E points) (normalOf E points) = target_vector := by
  have hu : Vec3.normSq (normalOf E points) = 1 := normSq_normalOf E points h1
  exact ⟨rodrigues_orth_left _ hu, rodrigues_det _ hu,
    rodrigues_mulVec_canon _ hu (canonicalize_z_nonneg _)⟩

/-- Witness for C6 on Scenario A. -/
theorem claim_C6_witness :
    3 ≤ pts4.length ∧
    Vec3.normSq (Efix (covOf pts4)) = 1 ∧
    (Mat3.mul (Mat3.transpose (rotOf Efix pts4)) (rotOf Efix pts4) = Mat3.id ∧
      Mat3.det (rotOf Efix pts4) = 1 ∧
      Mat3.mulVec (rotOf Efix pts4) (normalOf Efix pts4) = target_vector) := by
  have h1 : Vec3.normSq (Efix (covOf pts4)) = 1 := by norm_num [Efix, Vec3.normSq]
  exact ⟨by decide, h1, claim_C6 Efix pts4 (by decide) h1⟩

/-- C7: the centroid is the component-wise arithmetic mean of the points,
and the centering stage's transform `Translate(-centroid)` maps every
point p to p - centroid. -/
theorem claim_C7 (points : List Vec3) (h : 3 ≤ points.length) :
    (centroid points).x = (points.map Vec3.x).sum / (points.length : ℚ) ∧
    (centroid points).y = (points.map Vec3.y).sum / (points.length : ℚ) ∧
    (centroid points).z = (points.map Vec3.z).sum / (points.length : ℚ) ∧
    chunkAfterT points Mat4.id = translation4 (Vec3.neg (centroid points)) ∧
    ∀ p : Vec3, Mat4.mulp (translation4 (Vec3.neg (centroid points))) p
      = Vec3.sub p (centroid points) := by
  refine ⟨?_, ?_, ?_, ?_, ?_⟩
  · rw [centroid_eq]; simp only [Vec3.smul, Vec3.sum_x]; ring
  · rw [centroid_eq]; simp only [Vec3.smul, Vec3.sum_y]; ring
  · rw [centroid_eq]; simp only [Vec3.smul, Vec3.sum_z]; ring
  · unfold chunkAfterT
    exact Mat4.mul_id_right4 _
  · intro p
    ext <;> simp [Mat4.mulp, translation4, Vec3.sub, Vec3.neg] <;> ring

/-- Witness for C7 on Scenario A. -/
theorem claim_C7_witness :
    3 ≤ pts4.length ∧
    ((centroid pts4).x = (pts4.map Vec3.x).sum / (pts4.length : ℚ) ∧
      (centroid pts4).y = (pts4.map Vec3.y).sum / (pts4.length : ℚ) ∧
      (centroid pts4).z = (pts4.map Vec3.z).sum / (pts4.length : ℚ) ∧
      chunkAfterT pts4 Mat4.id = translation4 (Vec3.neg (centroid pts4)) ∧
      ∀ p : Vec3, Mat4.mulp (translation4 (Vec3.neg (centroid pts4))) p
        = Vec3.sub p (centroid pts4)) :=
  ⟨by decide, claim_C7 pts4 (by decide)⟩

lemma rodriguesRChecked_eq (n : Vec3) :
    rodriguesRChecked n = some (rodriguesR n) := by
  by_cases hs : Vec3.normSq (Vec3.cross n target_vector) = 0
  · simp [rodriguesRChecked, rodriguesR, divChecked, hs]
  · simp [rodriguesRChecked, rodriguesR, divChecked, hs]

/-- C10: the division `(1 - c) / s**2` is guarded by the `s == 0` test
(the checked computation never fails), and with the hard-coded target
axis the canonicalized normal equals the target whenever `s == 0`, so
the antiparallel case is unreachable. -/
theorem claim_C10 (nv : Vec3) (h1 : Vec3.normSq nv = 1) :
    rodriguesRChecked (canonicalize nv) = some (rodriguesR (canonicalize nv)) ∧
    (Vec3.normSq (Vec3.cross (canonicalize nv) target_vector) = 0 →
      canonicalize nv = target_vector) := by
  refine ⟨rodriguesRChecked_eq _, fun hs => ?_⟩
  exact unit_cross_zero_eq_target _ (by rw [normSq_canonicalize]; exact h1)
    (canonicalize_z_nonneg nv) hs

/-- Witness for C10 at the downward unit normal. -/
theorem claim_C10_witness :
    Vec3.normSq ⟨0, 0, -1⟩ = 1 ∧
    (rodriguesRChecked (canonicalize ⟨0, 0, -1⟩)
        = some (rodriguesR (canonicalize ⟨0, 0, -1⟩)) ∧
      (Vec3.normSq (Vec3.cross (canonicalize ⟨0, 0, -1⟩) target_vector) = 0 →
        canonicalize ⟨0, 0, -1⟩ = target_vector)) :=
  ⟨by norm_num [Vec3.normSq], claim_C10 ⟨0, 0, -1⟩ (by norm_num [Vec3.normSq])⟩

lemma smul_neg_comm (c : ℚ) (v : Vec3) :
    Vec3.smul c (Vec3.neg v) = Vec3.neg (Vec3.smul c v) := by
  ext <;> simp [Vec3.smul, Vec3.neg] <;> ring

/-- C2: given the eigensolver's contract (a unit eigenvector of the
smallest eigenvalue of the covariance of the centered points), the
script's fitted normal is that eigenvector up to the sign flip of lines
80-81, is still a unit eigenvector of the smallest eigenvalue, and its
target-axis (z) component is non-negative. -/
theorem claim_C2 (E : Mat3 → Vec3) (points : List Vec3) (lam : ℚ)
    (h1 : Vec3.normSq (E (covOf points)) = 1)
    (h2 : Mat3.mulVec (covOf points) (E (covOf points))
      = Vec3.smul lam (E (covOf points)))
    (h3 : ∀ mu : ℚ, ∀ u : Vec3, u ≠ Vec3.zero →
      Mat3.mulVec (covOf points) u = Vec3.smul mu u → lam ≤ mu) :
    Vec3.normSq (normalOf E points) = 1 ∧
    Mat3.mulVec (covOf points) (normalOf E points)
      = Vec3.smul lam (normalOf E points) ∧
    (∀ mu : ℚ, ∀ u : Vec3, u ≠ Vec3.zero →
      Mat3.mulVec (covOf points) u = Vec3.smul mu u → lam ≤ mu) ∧
    0 ≤ (normalOf E points).z ∧
    (normalOf E points = E (covOf points) ∨
      normalOf E points = Vec3.neg (E (covOf points))) := by
  refine ⟨normSq_normalOf E points h1, ?_, h3, canonicalize_z_nonneg _, ?_⟩
  · unfold normalOf
    rcases canonicalize_eq_or (E (covOf points)) with h | h <;> rw [h]
    · exact h2
    · rw [Mat3.mulVec_negVec, h2, smul_neg_comm]
  · unfold normalOf
    exact canonicalize_eq_or _

lemma diag_third_min (M : Mat3)
    (hM : M = ⟨1/3, 0, 0, 0, 1/3, 0, 0, 0, 0⟩) :
    ∀ mu : ℚ, ∀ u : Vec3, u ≠ Vec3.zero →
      Mat3.mulVec M u = Vec3.smul mu u → (0:ℚ) ≤ mu := by
  subst hM
  intro mu u hu heq
  by_contra hneg
  push_neg at hneg
  have hx := congrArg Vec3.x heq
  have hy := congrArg Vec3.y heq
  have hz := congrArg Vec3.z heq
  simp only [Mat3.mulVec, Vec3.smul] at hx hy hz
  have hux : u.x = 0 := by
    by_contra h0
    have h13 : (1:ℚ)/3 = mu := by
      apply mul_right_cancel₀ h0
      linarith [hx]
    linarith
  have huy : u.y = 0 := by
    by_contra h0
    have h13 : (1:ℚ)/3 = mu := by
      apply mul_right_cancel₀ h0
      linarith [hy]
    linarith
  have huz : u.z = 0 := by
    have hz2 : mu * u.z = 0 := by linarith [hz]
    rcases mul_eq_zero.mp hz2 with h | h
    · exact absurd h (by linarith)
    · exact h
  exact hu (by ext <;> simp [Vec3.zero, hux, huy, huz])

lemma diag_third_simple (M : Mat3)
    (hM : M = ⟨1/3, 0, 0, 0, 1/3, 0, 0, 0, 0⟩) :
    ∀ u : Vec3, Mat3.mulVec M u = Vec3.smul 0 u →
      ∃ a : ℚ, u = Vec3.smul a ⟨0, 0, 1⟩ := by
  subst hM
  intro u heq
  have hx := congrArg Vec3.x heq
  have hy := congrArg Vec3.y heq
  simp only [Mat3.mulVec, Vec3.smul] at hx hy
  have hux : u.x = 0 := by linarith [hx]
  have huy : u.y = 0 := by linarith [hy]
  exact ⟨u.z, by ext <;> simp [Vec3.smul, hux, huy]⟩

lemma covOf_pts4 : covOf pts4 = ⟨1/3, 0, 0, 0, 1/3, 0, 0, 0, 0⟩ := by
  norm_num [covOf, npCov, centeredPoints, centroid, pts4, Vec3.sum, Vec3.add,
    Vec3.sub, Vec3.smul, Vec3.zero, Mat3.sum, Mat3.add, Mat3.smul, Mat3.zero,
    Mat3.outer]

/-- Witness for C2 on Scenario A with an eigensolver returning the
downward vector (0,0,-1), exercising the sign flip. -/
theorem claim_C2_witness :
    Vec3.normSq (Eneg (covOf pts4)) = 1 ∧
    Mat3.mulVec (covOf pts4) (Eneg (covOf pts4))
      = Vec3.smul 0 (Eneg (covOf pts4)) ∧
    (∀ mu : ℚ, ∀ u : Vec3, u ≠ Vec3.zero →
      Mat3.mulVec (covOf pts4) u = Vec3.smul mu u → (0:ℚ) ≤ mu) ∧
    (Vec3.normSq (normalOf Eneg pts4) = 1 ∧
      Mat3.mulVec (covOf pts4) (normalOf Eneg pts4)
        = Vec3.smul 0 (normalOf Eneg pts4) ∧
      (∀ mu : ℚ, ∀ u : Vec3, u ≠ Vec3.zero →
        Mat3.mulVec (covOf pts4) u = Vec3.smul mu u → (0:ℚ) ≤ mu) ∧
      0 ≤ (normalOf Eneg pts4).z ∧
      (normalOf Eneg pts4 = Eneg (covOf pts4) ∨
        normalOf Eneg pts4 = Vec3.neg (Eneg (covOf pts4)))) := by
  have h1 : Vec3.normSq (Eneg (covOf pts4)) = 1 := by norm_num [Eneg, Vec3.normSq]
  have h2 : Mat3.mulVec (covOf pts4) (Eneg (covOf pts4))
      = Vec3.smul 0 (Eneg (covOf pts4)) := by
    rw [covOf_pts4]
    norm_num [Eneg, Mat3.mulVec, Vec3.smul]
  have h3 : ∀ mu : ℚ, ∀ u : Vec3, u ≠ Vec3.zero →
      Mat3.mulVec (covOf pts4) u = Vec3.smul mu u → (0:ℚ) ≤ mu := by
    rw [covOf_pts4]
    exact diag_third_min _ rfl
  exact ⟨h1, h2, h3, claim_C2 Eneg pts4 0 h1 h2 h3⟩

lemma centroid_perm {l l2 : List Vec3} (h : l.Perm l2) :
    centroid l2 = centroid l := by
  rw [centroid_eq, centroid_eq, h.length_eq, Vec3.vsum_perm h]

lemma npCov_perm {l l2 : List Vec3} (h : l.Perm l2) : npCov l2 = npCov l := by
  unfold npCov
  rw [centroid_perm h, h.length_eq]
  congr 1
  exact (Mat3.msum_perm (h.map _)).symm

lemma covOf_perm {l l2 : List Vec3} (h : l.Perm l2) : covOf l2 = covOf l := by
  unfold covOf centeredPoints
  rw [centroid_perm h]
  exact npCov_perm (h.map _)

/-- C9: the computed transform and the post-canonicalization normal are
invariant under reordering of the input point list. -/
theorem claim_C9 (E : Mat3 → Vec3) (points points2 : List Vec3)
    (hN : 3 ≤ points.length) (hperm : points.Perm points2) :
    alignTransform E points2 = alignTransform E points ∧
    normalOf E points2 = normalOf E points := by
  have hc : centroid points2 = centroid points := centroid_perm hperm
  have hcov : covOf points2 = covOf points := covOf_perm hperm
  constructor
  · unfold alignTransform rotOf normalOf
    rw [hc, hcov]
  · unfold normalOf
    rw [hcov]

/-- Witness for C9: Scenario A against the same list with its first two
points swapped. -/
theorem claim_C9_witness :
    3 ≤ pts4.length ∧
    pts4.Perm [⟨1, 0, 5⟩, ⟨0, 0, 5⟩, ⟨1, 1, 5⟩, ⟨0, 1, 5⟩] ∧
    (alignTransform Efix [⟨1, 0, 5⟩, ⟨0, 0, 5⟩, ⟨1, 1, 5⟩, ⟨0, 1, 5⟩]
        = alignTransform Efix pts4 ∧
      normalOf Efix [⟨1, 0, 5⟩, ⟨0, 0, 5⟩, ⟨1, 1, 5⟩, ⟨0, 1, 5⟩]
        = normalOf Efix pts4) := by
  have hperm : pts4.Perm [⟨1, 0, 5⟩, ⟨0, 0, 5⟩, ⟨1, 1, 5⟩, ⟨0, 1, 5⟩] := by
    unfold pts4
    exact List.Perm.swap _ _ _
  exact ⟨by decide, hperm, claim_C9 Efix pts4 _ (by decide) hperm⟩

lemma dot_self (v : Vec3) : Vec3.dot v v = Vec3.normSq v := rfl

lemma conj_cancel (R A : Mat3) (h : Mat3.mul (Mat3.transpose R) R = Mat3.id) :
    Mat3.mul (Mat3.mul (Mat3.transpose R)
      (Mat3.mul (Mat3.mul R A) (Mat3.transpose R))) R = A := by
  rw [Mat3.mul_assoc3, Mat3.mul_assoc3, h, Mat3.mul_id_right, ← Mat3.mul_assoc3, h,
    Mat3.mul_id_left]

lemma covOf_transformed (R : Mat3) (l : List Vec3) (h : (l.length : ℚ) ≠ 0) :
    covOf (l.map fun p => Mat3.mulVec R (Vec3.sub p (centroid l)))
      = Mat3.mul (Mat3.mul R (covOf l)) (Mat3.transpose R) := by
  have hcq : centroid (l.map fun p => Mat3.mulVec R (Vec3.sub p (centroid l)))
      = Vec3.zero := centroid_map_rot_sub R l h
  have hcent : centeredPoints (l.map fun p => Mat3.mulVec R (Vec3.sub p (centroid l)))
      = l.map fun p => Mat3.mulVec R (Vec3.sub p (centroid l)) := by
    unfold centeredPoints
    rw [hcq]
    simp [sub_zero_vec]
  rw [covOf, hcent, npCov_of_centroid_zero _ hcq, covOf_eq l h]
  rw [List.length_map, List.map_map]
  have hcomp : ((fun c => Mat3.outer c c) ∘
        fun p => Mat3.mulVec R (Vec3.sub p (centroid l)))
      = fun p => Mat3.mul (Mat3.mul R
          (Mat3.outer (Vec3.sub p (centroid l)) (Vec3.sub p (centroid l))))
          (Mat3.transpose R) := by
    funext p
    simp only [Function.comp]
    exact Mat3.outer_mulVec R _ _
  rw [hcomp, Mat3.sum_map_conj, Mat3.mul_smul_right, Mat3.mul_smul_left]

/-- C8: idempotence of re-alignment.  For a point set whose covariance has
a simple smallest eigenvalue (non-degenerate input), running the script's
alignment on the already-aligned points yields the identity transform,
assuming the eigensolver contract for both invocations. -/
theorem claim_C8 (E : Mat3 → Vec3) (points : List Vec3) (lam mu : ℚ)
    (hN : 3 ≤ points.length)
    (hnv1 : Vec3.normSq (E (covOf points)) = 1)
    (hnveig : Mat3.mulVec (covOf points) (E (covOf points))
      = Vec3.smul lam (E (covOf points)))
    (hnvmin : ∀ d : ℚ, ∀ u : Vec3, u ≠ Vec3.zero →
      Mat3.mulVec (covOf points) u = Vec3.smul d u → lam ≤ d)
    (hsimple : ∀ u : Vec3, Mat3.mulVec (covOf points) u = Vec3.smul lam u →
      ∃ a : ℚ, u = Vec3.smul a (E (covOf points)))
    (hw1 : Vec3.normSq
      (E (covOf (points.map (Mat4.mulp (alignTransform E points))))) = 1)
    (hweig : Mat3.mulVec (covOf (points.map (Mat4.mulp (alignTransform E points))))
        (E (covOf (points.map (Mat4.mulp (alignTransform E points)))))
      = Vec3.smul mu (E (covOf (points.map (Mat4.mulp (alignTransform E points))))))
    (hwmin : ∀ d : ℚ, ∀ u : Vec3, u ≠ Vec3.zero →
      Mat3.mulVec (covOf (points.map (Mat4.mulp (alignTransform E points)))) u
        = Vec3.smul d u → mu ≤ d) :
    alignTransform E (points.map (Mat4.mulp (alignTransform E points))) = Mat4.id := by
  have hlen := len_cast_ne_zero hN
  set q := points.map (Mat4.mulp (alignTransform E points)) with hqdef
  set R := rotOf E points with hRdef
  set n := normalOf E points with hndef
  set w := E (covOf q) with hwdef
  have hn2 : n = canonicalize (E (covOf points)) := by rw [hndef]; rfl
  have hfun : Mat4.mulp (alignTransform E points)
      = fun p => Mat3.mulVec R (Vec3.sub p (centroid points)) :=
    funext fun p => mulp_alignTransform E points p
  have hq2 : q = points.map fun p => Mat3.mulVec R (Vec3.sub p (centroid points)) := by
    rw [hqdef, hfun]
  have hnu : Vec3.normSq n = 1 := normSq_normalOf E points hnv1
  have hRt : Mat3.mulVec R n = target_vector :=
    rodrigues_mulVec_canon n hnu (by rw [hn2]; exact canonicalize_z_nonneg _)
  have hOL : Mat3.mul (Mat3.transpose R) R = Mat3.id := rodrigues_orth_left n hnu
  have hOR : Mat3.mul R (Mat3.transpose R) = Mat3.id := rodrigues_orth_right n hnu
  have hcovq : covOf q = Mat3.mul (Mat3.mul R (covOf points)) (Mat3.transpose R) := by
    rw [hq2]
    exact covOf_transformed R points hlen
  have hRtn : Mat3.mulVec (Mat3.transpose R) target_vector = n := by
    rw [← hRt, ← Mat3.mulVec_mul, hOL, Mat3.mulVec_id]
  have hneig : Mat3.mulVec (covOf points) n = Vec3.smul lam n := by
    rw [hn2]
    rcases canonicalize_eq_or (E (covOf points)) with hcc | hcc <;> rw [hcc]
    · exact hnveig
    · rw [Mat3.mulVec_negVec, hnveig, smul_neg_comm]
  have htEig : Mat3.mulVec (covOf q) target_vector
      = Vec3.smul lam target_vector := by
    rw [hcovq, Mat3.mulVec_mul, hRtn, Mat3.mulVec_mul, hneig, Mat3.mulVec_smulVec, hRt]
  have htne : target_vector ≠ Vec3.zero := by
    intro hcon
    have := congrArg Vec3.z hcon
    norm_num [target_vector, Vec3.zero] at this
  have hmule : mu ≤ lam := hwmin lam target_vector htne htEig
  have hcovP : covOf points
      = Mat3.mul (Mat3.mul (Mat3.transpose R) (covOf q)) R := by
    rw [hcovq]
    exact (conj_cancel R (covOf points) hOL).symm
  have hRw : Mat3.mulVec R (Mat3.mulVec (Mat3.transpose R) w) = w := by
    rw [← Mat3.mulVec_mul, hOR, Mat3.mulVec_id]
  have hwEigP : Mat3.mulVec (covOf points) (Mat3.mulVec (Mat3.transpose R) w)
      = Vec3.smul mu (Mat3.mulVec (Mat3.transpose R) w) := by
    rw [hcovP, Mat3.mulVec_mul, Mat3.mulVec_mul, hRw, hweig, Mat3.mulVec_smulVec]
  have hwne : Mat3.mulVec (Mat3.transpose R) w ≠ Vec3.zero := by
    intro h0
    have hcon : w = Vec3.zero := by rw [← hRw, h0, mulVec_zero_vec]
    exact (Vec3.ne_zero_of_normSq_one hw1) hcon
  have hlemu : lam ≤ mu := hnvmin mu _ hwne hwEigP
  have hlammu : lam = mu := le_antisymm hlemu hmule
  have hwEigP2 : Mat3.mulVec (covOf points) (Mat3.mulVec (Mat3.transpose R) w)
      = Vec3.smul lam (Mat3.mulVec (Mat3.transpose R) w) := by
    rw [hlammu]; exact hwEigP
  obtain ⟨a, ha⟩ := hsimple _ hwEigP2
  have hnw : Vec3.normSq (Mat3.mulVec (Mat3.transpose R) w) = 1 := by
    rw [Mat3.normSq_mulVec, Mat3.transpose_transpose, hOR, Mat3.mulVec_id, dot_self]
    exact hw1
  have ha2 : a * a = 1 := by
    rw [ha, Vec3.normSq_smul, hnv1] at hnw
    linarith
  have hw_eq : w = Vec3.smul a (Mat3.mulVec R (E (covOf points))) := by
    rw [← hRw, ha, Mat3.mulVec_smulVec]
  have hRnv : Mat3.mulVec R (E (covOf points)) = target_vector ∨
      Mat3.mulVec R (E (covOf points)) = Vec3.neg target_vector := by
    rcases canonicalize_eq_or (E (covOf points)) with hcc | hcc
    · left
      have hnn : n = E (covOf points) := hn2.trans hcc
      rw [← hnn]
      exact hRt
    · right
      have hnn : Vec3.neg n = E (covOf points) := by
        rw [hn2.trans hcc, Vec3.neg_neg_eq]
      rw [← hnn, Mat3.mulVec_negVec, hRt]
  have hwt : canonicalize w = target_vector := by
    rcases hRnv with hR1 | hR1 <;> rcases mul_self_eq_one_iff.mp ha2 with ha1 | ha1 <;>
      rw [hw_eq, hR1, ha1] <;>
      norm_num [canonicalize, target_vector, Vec3.smul, Vec3.neg]
  have hcq : centroid q = Vec3.zero := by
    rw [hq2]
    exact centroid_map_rot_sub _ _ hlen
  unfold alignTransform rotOf normalOf
  rw [← hwdef, hwt, hcq]
  have hrt : rodriguesR target_vector = Mat3.id := by
    apply rodriguesR_of_cross_zero
    norm_num [Vec3.cross, Vec3.normSq, target_vector]
  rw [hrt]
  ext <;> norm_num [Mat4.mul, rmat4, translation4, Mat3.id, Mat4.id, Vec3.neg, Vec3.zero]


lemma map_align_pts4 : pts4.map (Mat4.mulp (alignTransform Efix pts4)) = qts4 := by
  norm_num [pts4, qts4, alignTransform, rotOf, normalOf, canonicalize, rodriguesR,
    Efix, centroid, Vec3.sum, Vec3.add, Vec3.smul, Vec3.neg, Vec3.zero, Vec3.cross,
    Vec3.normSq, Vec3.dot, target_vector, Mat3.id, Mat4.mul, Mat4.mulp, rmat4,
    translation4, crossMat, Mat3.add, Mat3.mul, Mat3.smul, List.map]

lemma covOf_qts4 : covOf qts4 = ⟨1/3, 0, 0, 0, 1/3, 0, 0, 0, 0⟩ := by
  norm_num [covOf, npCov, centeredPoints, centroid, qts4, Vec3.sum, Vec3.add,
    Vec3.sub, Vec3.smul, Vec3.zero, Mat3.sum, Mat3.add, Mat3.smul, Mat3.zero,
    Mat3.outer]

/-- Witness for C8 on Scenario A with the upward eigensolver stub and
both smallest eigenvalues equal to 0. -/
theorem claim_C8_witness :
    3 ≤ pts4.length ∧
    Vec3.normSq (Efix (covOf pts4)) = 1 ∧
    Mat3.mulVec (covOf pts4) (Efix (covOf pts4))
      = Vec3.smul 0 (Efix (covOf pts4)) ∧
    (∀ d : ℚ, ∀ u : Vec3, u ≠ Vec3.zero →
      Mat3.mulVec (covOf pts4) u = Vec3.smul d u → (0:ℚ) ≤ d) ∧
    (∀ u : Vec3, Mat3.mulVec (covOf pts4) u = Vec3.smul 0 u →
      ∃ a : ℚ, u = Vec3.smul a (Efix (covOf pts4))) ∧
    Vec3.normSq (Efix (covOf (pts4.map (Mat4.mulp (alignTransform Efix pts4))))) = 1 ∧
    Mat3.mulVec (covOf (pts4.map (Mat4.mulp (alignTransform Efix pts4))))
        (Efix (covOf (pts4.map (Mat4.mulp (alignTransform Efix pts4)))))
      = Vec3.smul 0 (Efix (covOf (pts4.map (Mat4.mulp (alignTransform Efix pts4))))) ∧
    (∀ d : ℚ, ∀ u : Vec3, u ≠ Vec3.zero →
      Mat3.mulVec (covOf (pts4.map (Mat4.mulp (alignTransform Efix pts4)))) u
        = Vec3.smul d u → (0:ℚ) ≤ d) ∧
    alignTransform Efix (pts4.map (Mat4.mulp (alignTransform Efix pts4))) = Mat4.id := by
  have hcovQ : covOf (pts4.map (Mat4.mulp (alignTransform Efix pts4)))
      = (⟨1/3, 0, 0, 0, 1/3, 0, 0, 0, 0⟩ : Mat3) := by
    rw [map_align_pts4]; exact covOf_qts4
  have hnv1 : Vec3.normSq (Efix (covOf pts4)) = 1 := by norm_num [Efix, Vec3.normSq]
  have hnveig : Mat3.mulVec (covOf pts4) (Efix (covOf pts4))
      = Vec3.smul 0 (Efix (covOf pts4)) := by
    rw [covOf_pts4]
    norm_num [Efix, Mat3.mulVec, Vec3.smul]
  have hnvmin : ∀ d : ℚ, ∀ u : Vec3, u ≠ Vec3.zero →
      Mat3.mulVec (covOf pts4) u = Vec3.smul d u → (0:ℚ) ≤ d := by
    rw [covOf_pts4]
    exact diag_third_min _ rfl
  have hsimple : ∀ u : Vec3, Mat3.mulVec (covOf pts4) u = Vec3.smul 0 u →
      ∃ a : ℚ, u = Vec3.smul a (Efix (covOf pts4)) := by
    rw [covOf_pts4]
    intro u hu
    obtain ⟨a, ha⟩ := diag_third_simple _ rfl u hu
    exact ⟨a, by rw [ha]; norm_num [Efix]⟩
  have hw1 : Vec3.normSq
      (Efix (covOf (pts4.map (Mat4.mulp (alignTransform Efix pts4))))) = 1 := by
    norm_num [Efix, Vec3.normSq]
  have hweig : Mat3.mulVec (covOf (pts4.map (Mat4.mulp (alignTransform Efix pts4))))
        (Efix (covOf (pts4.map (Mat4.mulp (alignTransform Efix pts4)))))
      = Vec3.smul 0 (Efix (covOf (pts4.map (Mat4.mulp (alignTransform Efix pts4))))) := by
    rw [hcovQ]
    norm_num [Efix, Mat3.mulVec, Vec3.smul]
  have hwmin : ∀ d : ℚ, ∀ u : Vec3, u ≠ Vec3.zero →
      Mat3.mulVec (covOf (pts4.map (Mat4.mulp (alignTransform Efix pts4)))) u
        = Vec3.smul d u → (0:ℚ) ≤ d := by
    rw [hcovQ]
    exact diag_third_min _ rfl
  exact ⟨by decide, hnv1, hnveig, hnvmin, hsimple, hw1, hweig, hwmin,
    claim_C8 Efix pts4 0 0 (by decide) hnv1 hnveig hnvmin hsimple hw1 hweig hwmin⟩
